import Mathlib

/-!
# Formal model of the `ai-agent-prop-firm` analysis scripts

A shallow embedding, in Lean 4, of the algorithmic content of the repository's
Python scripts:

* the incremental VWAP computation and the ABOVE/BELOW classification of a bar
  against it (`src/backend/analyze-qqq.py`, `src/backend/debug-mpwr.py`);
* the gap-percentage computation and its threshold check
  (`src/backend/analyze-qqq.py`);
* the trade-result file loaders (`src/backend/tmp/analyze-orb.py`,
  `src/backend/tmp/analyze-orb-validated.py`,
  `src/backend/tmp/compare-all-strategies.py`);
* the trade-metrics aggregation: win/loss partition, averages, profit factor,
  exit-reason and entry-time-bucket breakdowns (same three `tmp` scripts).

Python floats are modelled as rationals (`ℚ`), Python strings as lists of
characters (`PyStr := List Char`), and a computation that can raise a Python
exception is modelled as an `Option`, with `none` standing for the raised
exception.
-/

namespace PropFirm

/-- Python strings are modelled as lists of characters, so that every string
operation the scripts use is a structural recursion the kernel can evaluate. -/
abbrev PyStr := List Char

/-- The whitespace characters recognised by Python's `str.strip()` that can
occur in the data files: space, tab, newline, carriage return. -/
def isWs (c : Char) : Bool := c = ' ' || c = '\t' || c = '\n' || c = '\r'

/-- Drop leading whitespace from a character list. -/
def dropLeadingWs : PyStr → PyStr
  | [] => []
  | c :: cs => if isWs c then dropLeadingWs cs else c :: cs

/-- Model of Python's `str.strip()`: remove leading and trailing whitespace. -/
def pyStrip (s : PyStr) : PyStr := (dropLeadingWs (dropLeadingWs s.reverse).reverse)

/-- Model of Python's `str.startswith(c)` for a one-character argument. -/
def startsWithChar (s : PyStr) (c : Char) : Bool :=
  match s with
  | [] => false
  | c' :: _ => c' = c

/-- Model of Python's `str.split(sep)` for a one-character separator. -/
def splitOnChar (c : Char) (s : PyStr) : List PyStr :=
  match s with
  | [] => [[]]
  | x :: xs =>
    let rest := splitOnChar c xs
    if x = c then [] :: rest
    else
      match rest with
      | [] => [[x]]
      | r :: rs => (x :: r) :: rs

/-- Parse a non-empty all-digit character list as a natural number; `none` on
the empty list or any non-digit character (where Python's `int()` raises
`ValueError`). -/
def digitsToNat : PyStr → Option Nat
  | [] => none
  | cs =>
    cs.foldl
      (fun acc c =>
        match acc with
        | none => none
        | some n => if c.isDigit then some (n * 10 + (c.toNat - 48)) else none)
      (some 0)

/-- Model of Python's `int()` on a stripped string: an optional minus sign
followed by digits; `none` models the `ValueError` raised otherwise. -/
def pyInt (s : PyStr) : Option Int :=
  match s with
  | '-' :: ds => (digitsToNat ds).map (fun n => -(n : Int))
  | ds => (digitsToNat ds).map (fun n => (n : Int))

/-! ## Bars and VWAP (`analyze-qqq.py` lines 43–53, `debug-mpwr.py` lines 38–47) -/

/-- One OHLCV bar, as unpacked in `analyze-qqq.py`
(`time, open_, high, low, close, volume = bar`); prices and volume are Python
floats, modelled as rationals.  The time-of-day string plays no role in any of
the computations modelled here and is omitted. -/
structure Bar where
  open_ : ℚ
  high : ℚ
  low : ℚ
  close : ℚ
  volume : ℚ
deriving DecidableEq

/-- The running VWAP accumulators `cumVol` and `cumVolPrice`
(`analyze-qqq.py` lines 44–45: `cumVol = 0`, `cumVolPrice = 0`). -/
structure VwapState where
  cumVol : ℚ
  cumVolPrice : ℚ
deriving DecidableEq

/-- The initial accumulator state: both running sums start at 0. -/
def initVwap : VwapState := ⟨0, 0⟩

/-- One iteration of the VWAP loop (`analyze-qqq.py` lines 48–50):
`typical = (high + low + close) / 3; cumVolPrice += typical * volume;
cumVol += volume`. -/
def stepVwap (s : VwapState) (b : Bar) : VwapState :=
  { cumVol := s.cumVol + b.volume
    cumVolPrice := s.cumVolPrice + ((b.high + b.low + b.close) / 3) * b.volume }

/-- `vwap = cumVolPrice / cumVol if cumVol > 0 else 0`
(`analyze-qqq.py` line 51, `debug-mpwr.py` line 44). -/
def vwapOf (s : VwapState) : ℚ :=
  if s.cumVol > 0 then s.cumVolPrice / s.cumVol else 0

/-- `relation = "ABOVE" if close > vwap else "BELOW"`
(`analyze-qqq.py` line 53; `debug-mpwr.py` line 46 computes the same strict
comparison for its `above_vwap` marker). -/
def relation (close vwap : ℚ) : String :=
  if close > vwap then "ABOVE" else "BELOW"

/-- Folding a whole bar list into the accumulators, one bar at a time, exactly
as the `for` loop of `analyze-qqq.py` lines 47–51 does. -/
def foldBars (s : VwapState) (bars : List Bar) : VwapState :=
  bars.foldl stepVwap s

/-- Folding a list of bar groups, group by group: each group is folded with
`foldBars` starting from the state left by the previous groups. -/
def foldGroups (s : VwapState) (groups : List (List Bar)) : VwapState :=
  groups.foldl foldBars s

/-- The per-bar output rows of the loop of `analyze-qqq.py` lines 47–53: for
each bar, its close, the VWAP after folding it in, and the ABOVE/BELOW
classification printed for it. -/
def vwapRowsFrom (s : VwapState) : List Bar → List (ℚ × ℚ × String)
  | [] => []
  | b :: bs =>
    let s' := stepVwap s b
    (b.close, vwapOf s', relation b.close (vwapOf s')) :: vwapRowsFrom s' bs

/-- The rows produced by running the loop from the initial state. -/
def vwapRows (bars : List Bar) : List (ℚ × ℚ × String) :=
  vwapRowsFrom initVwap bars

/-- The sequence of VWAP values printed bar by bar (the VWAP trajectory). -/
def vwapTrajectoryFrom (s : VwapState) : List Bar → List ℚ
  | [] => []
  | b :: bs =>
    let s' := stepVwap s b
    vwapOf s' :: vwapTrajectoryFrom s' bs

/-- The VWAP trajectory of a bar list, starting from the initial state. -/
def vwapTrajectory (bars : List Bar) : List ℚ :=
  vwapTrajectoryFrom initVwap bars

/-- Total volume of a bar list: the value `cumVol` reaches after the loop. -/
def totalVolume (bars : List Bar) : ℚ :=
  (bars.map (fun b => b.volume)).sum

/-- Total typical-price-times-volume of a bar list: the value `cumVolPrice`
reaches after the loop. -/
def totalTypVol (bars : List Bar) : ℚ :=
  (bars.map (fun b => ((b.high + b.low + b.close) / 3) * b.volume)).sum

/-! ## Gap percentage (`analyze-qqq.py` lines 36 and 41) -/

/-- `gap_pct = ((first_open - prev_close) / prev_close) * 100`
(`analyze-qqq.py` line 36; `check-data-quality.py` computes the same formula,
rounded to 2 decimals, in SQL). -/
def gap_pct (first_open prev_close : ℚ) : ℚ :=
  ((first_open - prev_close) / prev_close) * 100

/-- The down-direction threshold test `gap_pct <= -1.0` of `analyze-qqq.py`
line 41, with the script's literal `1.0` generalised to the configuration
value `MIN_GAP_PERCENT` named by the spec (the script instantiates
`min_gap = 1`). -/
def meets_down_threshold (g min_gap : ℚ) : Bool :=
  g ≤ -min_gap

/-! ## Trade records and metrics aggregation
(`tmp/analyze-orb.py`, `tmp/analyze-orb-validated.py`,
`tmp/compare-all-strategies.py`) -/

/-- The fields of a trade record that the aggregation scripts read.
`pnlPercent` is an `Option` because records with a null `pnlPercent` occur and
are screened out by `t.get('pnlPercent') is not None`; `entryTime` defaults to
the empty string, matching `t.get('entryTime', '')`. -/
structure Trade where
  ticker : PyStr
  date : PyStr
  entryTime : PyStr
  exitReason : PyStr
  pnlPercent : Option ℚ
deriving DecidableEq

/-- The `pnlPercent` value of a trade, read with `t['pnlPercent']`; the
default 0 is never reached on the lists the scripts build, which contain only
trades whose `pnlPercent` is non-null. -/
def pnl (t : Trade) : ℚ := t.pnlPercent.getD 0

/-- `trades = [t for t in data if t.get('pnlPercent') is not None]`
(`analyze-orb.py` line 7). -/
def tradesWithPnl (data : List Trade) : List Trade :=
  data.filter (fun t => t.pnlPercent.isSome)

/-- `winners = [t for t in trades if t['pnlPercent'] > 0]`
(`analyze-orb.py` line 12). -/
def winners (trades : List Trade) : List Trade :=
  trades.filter (fun t => 0 < pnl t)

/-- `losers = [t for t in trades if t['pnlPercent'] < 0]`
(`analyze-orb.py` line 13). -/
def losers (trades : List Trade) : List Trade :=
  trades.filter (fun t => pnl t < 0)

/-- The trades with `pnlPercent` exactly zero.  No script builds this list;
it names the remainder of the winners/losers sign partition, for the
partition property. -/
def zeroPnl (trades : List Trade) : List Trade :=
  trades.filter (fun t => pnl t = 0)

/-- `sum(t['pnlPercent'] for t in l)`. -/
def sumPnl (l : List Trade) : ℚ := (l.map pnl).sum

/-- `len(winners)/len(trades)*100` (`analyze-orb.py` line 14); meaningful only
when `trades` is non-empty — on an empty list the Python expression raises
`ZeroDivisionError`, which `aggregateOrb` models. -/
def win_rate (trades : List Trade) : ℚ :=
  ((winners trades).length : ℚ) / (trades.length : ℚ) * 100

/-- `avg_win = sum(...) / len(winners) if winners else 0`
(`analyze-orb.py` line 17). -/
def avg_win (trades : List Trade) : ℚ :=
  if winners trades ≠ [] then sumPnl (winners trades) / ((winners trades).length : ℚ) else 0

/-- `avg_loss = sum(...) / len(losers) if losers else 0`
(`analyze-orb.py` line 18). -/
def avg_loss (trades : List Trade) : ℚ :=
  if losers trades ≠ [] then sumPnl (losers trades) / ((losers trades).length : ℚ) else 0

/-- `avg_pnl = sum(...) / len(trades)` (`analyze-orb.py` line 19); meaningful
only when `trades` is non-empty. -/
def avg_pnl (trades : List Trade) : ℚ :=
  sumPnl trades / (trades.length : ℚ)

/-- `gross_profit = sum(t['pnlPercent'] for t in winners)`
(`analyze-orb.py` line 27). -/
def gross_profit (trades : List Trade) : ℚ := sumPnl (winners trades)

/-- `gross_loss = abs(sum(t['pnlPercent'] for t in losers))`
(`analyze-orb.py` line 28). -/
def gross_loss (trades : List Trade) : ℚ := |sumPnl (losers trades)|

/-- `profit_factor = gross_profit / gross_loss if gross_loss > 0 else 0`
(`analyze-orb.py` line 29, `compare-all-strategies.py` line 56). -/
def profit_factor (trades : List Trade) : ℚ :=
  if gross_loss trades > 0 then gross_profit trades / gross_loss trades else 0

/-- The spec's wording of gross profit: the sum of absolute `pnlPercent`
values over the winners.  Stated separately from `gross_profit` (the code's
formula) so the two can be compared. -/
def specGrossProfit (trades : List Trade) : ℚ :=
  ((winners trades).map (fun t => |pnl t|)).sum

/-- The spec's wording of gross loss: the sum of absolute `pnlPercent` values
over the losers.  Stated separately from `gross_loss` (the code's formula) so
the two can be compared. -/
def specGrossLoss (trades : List Trade) : ℚ :=
  ((losers trades).map (fun t => |pnl t|)).sum

/-- The scalar statistics `analyze-orb.py` prints for a trade list. -/
structure OrbReport where
  totalTrades : Nat
  winnersCount : Nat
  losersCount : Nat
  winRatePct : ℚ
  avgWin : ℚ
  avgLoss : ℚ
  avgPnl : ℚ
  totalPnl : ℚ
  profitFactor : ℚ
deriving DecidableEq

/-- The aggregation performed by `analyze-orb.py` lines 7–31.  The script has
no empty-input guard: with `len(trades) == 0` the expression
`len(winners)/len(trades)*100` raises `ZeroDivisionError`, modelled here by
`none`. -/
def aggregateOrb (data : List Trade) : Option OrbReport :=
  let trades := tradesWithPnl data
  if trades.length = 0 then none
  else
    some
      { totalTrades := trades.length
        winnersCount := (winners trades).length
        losersCount := (losers trades).length
        winRatePct := win_rate trades
        avgWin := avg_win trades
        avgLoss := avg_loss trades
        avgPnl := avg_pnl trades
        totalPnl := sumPnl trades
        profitFactor := profit_factor trades }

/-- The per-strategy outcome of `compare-all-strategies.py`: either the
`"No trades executed"` branch of its `len(trades) == 0` guard (lines 36–43),
or the statistics block of lines 45–57. -/
inductive CompareReport where
  | noTrades : CompareReport
  | stats : (tradeCount : Nat) → (winRatePct avgWin avgLoss avgPnl totalPnl profitFactor : ℚ) →
      CompareReport
deriving DecidableEq

/-- The aggregation performed by `compare-all-strategies.py` lines 34–57,
including its empty-trades guard: an empty trade list yields the explicit
no-trades marker and no division is attempted. -/
def aggregateCompare (data : List Trade) : CompareReport :=
  let trades := tradesWithPnl data
  if trades.length = 0 then CompareReport.noTrades
  else
    CompareReport.stats trades.length (win_rate trades) (avg_win trades) (avg_loss trades)
      (avg_pnl trades) (sumPnl trades) (profit_factor trades)

/-! ## Grouped breakdowns (`analyze-orb.py` lines 33–41,
`analyze-orb-validated.py` lines 62–87) -/

/-- The keys of the `by_reason` defaultdict after the loop
`for t in trades: by_reason[t['exitReason']].append(t['pnlPercent'])`: the
distinct `exitReason` values occurring in `trades`, in first-appearance
order. -/
def by_reason_keys (trades : List Trade) : List PyStr :=
  (trades.map (fun t => t.exitReason)).dedup

/-- `by_reason[r]`: the `pnlPercent` values of the trades whose `exitReason`
is `r`, in list order. -/
def reasonPnls (trades : List Trade) (r : PyStr) : List ℚ :=
  (trades.filter (fun t => t.exitReason = r)).map pnl

/-- The exit-reason breakdown printed by `analyze-orb.py` lines 39–41: one row
per key present in `by_reason`, carrying the group's trade count and the mean
of its `pnlPercent` values (`avg = sum(pnls) / len(pnls)`).  The print order
(descending count) is presentation only and is not modelled; the rows are kept
in key order. -/
def reasonReport (trades : List Trade) : List (PyStr × Nat × ℚ) :=
  (by_reason_keys trades).map
    (fun r =>
      (r, (reasonPnls trades r).length,
        (reasonPnls trades r).sum / ((reasonPnls trades r).length : ℚ)))

/-- `hour = int(entry_time.split(':')[0])` (`analyze-orb-validated.py`
line 66); `none` models the `ValueError` Python raises on a malformed hour
field. -/
def hourOf (entryTime : PyStr) : Option Nat :=
  digitsToNat ((splitOnChar ':' entryTime).headD [])

/-- The bucket label chosen from the hour by the `if/elif` chain of
`analyze-orb-validated.py` lines 67–76: hours 9–12 get their own buckets and
every other hour falls to the `else` branch labelled `'13:00+'`. -/
def bucketOfHour (h : Nat) : PyStr :=
  if h = 9 then "09:30-10:00".toList
  else if h = 10 then "10:00-11:00".toList
  else if h = 11 then "11:00-12:00".toList
  else if h = 12 then "12:00-13:00".toList
  else "13:00+".toList

/-- The bucket a trade is appended to by the loop of
`analyze-orb-validated.py` lines 63–77: `none` when `entry_time` is empty
(the `if entry_time:` guard skips the trade) or when the hour field is
malformed (where Python's `int()` would raise instead). -/
def timingBucket (t : Trade) : Option PyStr :=
  if t.entryTime = [] then none
  else (hourOf t.entryTime).map bucketOfHour

/-- `by_timing[b]`: the `pnlPercent` values of the trades assigned to
bucket `b`. -/
def timingPnls (trades : List Trade) (b : PyStr) : List ℚ :=
  (trades.filter (fun t => timingBucket t = some b)).map pnl

/-- The fixed bucket list the output loop of `analyze-orb-validated.py`
line 80 iterates over. -/
def timingBuckets : List PyStr :=
  ["09:30-10:00".toList, "10:00-11:00".toList, "11:00-12:00".toList,
   "12:00-13:00".toList, "13:00+".toList]

/-- The entry-time breakdown printed by `analyze-orb-validated.py` lines
80–85: the fixed bucket list is walked in order and a row (count and mean
`pnlPercent`) is printed only for buckets present in `by_timing`
(`if bucket in by_timing:`), i.e. only for buckets with at least one
member. -/
def timingReport (trades : List Trade) : List (PyStr × Nat × ℚ) :=
  timingBuckets.filterMap
    (fun b =>
      if (timingPnls trades b).length = 0 then none
      else
        some (b, (timingPnls trades b).length,
          (timingPnls trades b).sum / ((timingPnls trades b).length : ℚ)))

/-! ## Trade-result file loaders -/

/-- Model of `json.loads` restricted to the structural layer the loader claims
depend on: a flat JSON array of integers, surrounded by optional whitespace.
`none` models a raised `json.JSONDecodeError`.  The array's elements are
abstracted to integers because the loaders' line handling is independent of
the element shape. -/
def jsonLoadsArr (s : PyStr) : Option (List Int) :=
  let t := pyStrip s
  match t with
  | '[' :: rest =>
    match rest.reverse with
    | ']' :: innerRev =>
      let inner := pyStrip innerRev.reverse
      if inner = [] then some []
      else (splitOnChar ',' inner).mapM (fun p => pyInt (pyStrip p))
    | _ => none
  | _ => none

/-- A trade-result file, as `f.readlines()` returns it: its lines, each
(except possibly the last) ending in `'\n'`. -/
abbrev PyLines := List PyStr

/-- The loader of `analyze-orb.py` lines 3–5:
`data = json.loads(''.join(lines[1:]))` — the first line is discarded
unconditionally. -/
def load_orb (lines : PyLines) : Option (List Int) :=
  jsonLoadsArr (lines.drop 1).flatten

/-- The `json_start` scan of `analyze-orb-validated.py` lines 6–10: the index
of the first line whose stripped form starts with `'['`; the variable keeps
its initial value 0 when no line qualifies. -/
def jsonStartFrom (i : Nat) : PyLines → Nat
  | [] => 0
  | l :: ls => if startsWithChar (pyStrip l) '[' then i else jsonStartFrom (i + 1) ls

/-- `json_start` computed from the start of the file. -/
def json_start (lines : PyLines) : Nat := jsonStartFrom 0 lines

/-- The loader of `analyze-orb-validated.py` lines 3–11:
`data = json.loads(''.join(lines[json_start:]))`. -/
def load_validated (lines : PyLines) : Option (List Int) :=
  jsonLoadsArr (lines.drop (json_start lines)).flatten

/-- The loader of `compare-all-strategies.py` lines 28–34: keep all lines when
the first line (stripped) starts with `'['`, otherwise drop exactly the first
line.  (On an empty file the Python `lines[0]` raises `IndexError`; the
`headD []` default is never reached on the non-empty files the claims are
about.) -/
def load_compare (lines : PyLines) : Option (List Int) :=
  if startsWithChar (pyStrip (lines.headD [])) '[' then jsonLoadsArr lines.flatten
  else jsonLoadsArr (lines.drop 1).flatten

/-! ## Sample trades used by concrete witnesses -/

/-- A winning trade (positive `pnlPercent`). -/
def tWin : Trade := ⟨"MU".toList, "2025-10-23".toList, "09:45".toList, "target".toList, some 2⟩

/-- A losing trade (negative `pnlPercent`). -/
def tLoss : Trade :=
  ⟨"QQQ".toList, "2025-11-14".toList, "10:05".toList, "stop_loss".toList, some (-1)⟩

/-- A flat trade (`pnlPercent` exactly 0). -/
def tZero : Trade :=
  ⟨"AMD".toList, "2025-11-14".toList, "13:30".toList, "time_exit".toList, some 0⟩

/-- A trade whose `entryTime` is the empty string. -/
def tEmptyTime : Trade :=
  ⟨"MPWR".toList, "2025-11-14".toList, [], "target".toList, some 1⟩

/-- A trade whose `entryTime` hour is 8 (before the named buckets). -/
def tEarly : Trade :=
  ⟨"SPY".toList, "2025-11-14".toList, "08:15".toList, "target".toList, some 3⟩

/-! ## Helper lemmas -/

/-- Folding bars distributes over list append. -/
theorem foldBars_append (s : VwapState) (xs ys : List Bar) :
    foldBars s (xs ++ ys) = foldBars (foldBars s xs) ys :=
  List.foldl_append stepVwap s xs ys

/-- Folding group by group equals folding the flattened bar list. -/
theorem foldGroups_eq_flatten :
    ∀ (groups : List (List Bar)) (s : VwapState),
      foldGroups s groups = foldBars s groups.flatten := by
  intro groups
  induction groups with
  | nil => intro s; rfl
  | cons g gs ih =>
    intro s
    calc foldGroups s (g :: gs) = foldGroups (foldBars s g) gs := rfl
      _ = foldBars (foldBars s g) gs.flatten := ih (foldBars s g)
      _ = foldBars s (g ++ gs.flatten) := (foldBars_append s g gs.flatten).symm
      _ = foldBars s (g :: gs).flatten := by rw [List.flatten_cons]

/-- `cumVol` after the fold is the starting value plus the total volume. -/
theorem foldBars_cumVol :
    ∀ (bars : List Bar) (s : VwapState),
      (foldBars s bars).cumVol = s.cumVol + totalVolume bars := by
  intro bars
  induction bars with
  | nil => intro s; simp [foldBars, totalVolume]
  | cons b bs ih =>
    intro s
    have : foldBars s (b :: bs) = foldBars (stepVwap s b) bs := rfl
    rw [this, ih, stepVwap]
    simp [totalVolume]
    ring

/-- `cumVolPrice` after the fold is the starting value plus the total
typical-price-times-volume. -/
theorem foldBars_cumVolPrice :
    ∀ (bars : List Bar) (s : VwapState),
      (foldBars s bars).cumVolPrice = s.cumVolPrice + totalTypVol bars := by
  intro bars
  induction bars with
  | nil => intro s; simp [foldBars, totalTypVol]
  | cons b bs ih =>
    intro s
    have : foldBars s (b :: bs) = foldBars (stepVwap s b) bs := rfl
    rw [this, ih, stepVwap]
    simp [totalTypVol]
    ring

/-- The three sign filters cover a trade list exactly. -/
theorem filter_sign_partition_length :
    ∀ trades : List Trade,
      (winners trades).length + (losers trades).length + (zeroPnl trades).length
        = trades.length := by
  intro trades
  induction trades with
  | nil => rfl
  | cons t ts ih =>
    rcases lt_trichotomy (pnl t) 0 with h | h | h
    · have hw : ¬ 0 < pnl t := not_lt.mpr h.le
      have hz : ¬ pnl t = 0 := ne_of_lt h
      simp only [winners, losers, zeroPnl, List.filter_cons] at ih ⊢
      simp [h, hw, hz] at ih ⊢
      omega
    · have hw : ¬ 0 < pnl t := by rw [h]; exact lt_irrefl 0
      have hl : ¬ pnl t < 0 := by rw [h]; exact lt_irrefl 0
      simp only [winners, losers, zeroPnl, List.filter_cons] at ih ⊢
      simp [h, hw, hl] at ih ⊢
      omega
    · have hl : ¬ pnl t < 0 := not_lt.mpr h.le
      have hz : ¬ pnl t = 0 := (ne_of_gt h)
      simp only [winners, losers, zeroPnl, List.filter_cons] at ih ⊢
      simp [h, hl, hz] at ih ⊢
      omega

/-- A list of everywhere-positive values sums to the sum of its absolute
values. -/
theorem pos_list_sum_abs :
    ∀ l : List Trade, (∀ t ∈ l, 0 < pnl t) →
      (l.map pnl).sum = (l.map (fun t => |pnl t|)).sum := by
  intro l
  induction l with
  | nil => intro _; rfl
  | cons t ts ih =>
    intro h
    have ht : 0 < pnl t := h t (List.mem_cons_self t ts)
    have hts := ih (fun x hx => h x (List.mem_cons_of_mem t hx))
    simp only [List.map_cons, List.sum_cons, hts, abs_of_pos ht]

/-- A list of everywhere-negative values has a nonpositive sum, and the
absolute value of its sum is the sum of its absolute values. -/
theorem neg_list_sum_abs :
    ∀ l : List Trade, (∀ t ∈ l, pnl t < 0) →
      (l.map pnl).sum ≤ 0 ∧ |(l.map pnl).sum| = (l.map (fun t => |pnl t|)).sum := by
  intro l
  induction l with
  | nil => intro _; simp
  | cons t ts ih =>
    intro h
    have ht : pnl t < 0 := h t (List.mem_cons_self t ts)
    have hts := ih (fun x hx => h x (List.mem_cons_of_mem t hx))
    constructor
    · simp only [List.map_cons, List.sum_cons]
      exact add_nonpos ht.le hts.1
    · simp only [List.map_cons, List.sum_cons]
      rw [abs_of_nonpos (add_nonpos ht.le hts.1), ← hts.2, abs_of_nonpos hts.1,
        abs_of_neg ht]
      ring

/-! ## Theorems -/

/-- C9: the ABOVE/BELOW classification is the strict comparison
`close > vwap`, so a bar whose close exactly equals the VWAP is classified
BELOW, never ABOVE. -/
theorem relation_strict_above :
    ∀ close vwap : ℚ,
      (relation close vwap = "ABOVE" ↔ vwap < close) ∧ relation vwap vwap = "BELOW" := by
  intro c v
  constructor
  · by_cases h : v < c
    · rw [relation, if_pos h]
      exact iff_of_true rfl h
    · rw [relation, if_neg h]
      exact iff_of_false (by decide) h
  · rw [relation, if_neg (lt_irrefl v)]

/-- C3: for every non-zero previous close, `gap_pct` is exactly
`(open − prevClose)/prevClose × 100`, the down-direction threshold test
`gap_pct ≤ −MIN_GAP_PERCENT` holds iff `|gap_pct| ≥ MIN_GAP_PERCENT` and the
gap is in the down direction, and the concrete scenario
`previous_close = 500`, `session_open = 495`, `MIN_GAP_PERCENT = 1` gives
`gap_pct = −1.00` with the threshold met. -/
theorem gap_percent_threshold :
    ∀ session_open previous_close min_gap : ℚ,
      previous_close ≠ 0 → 0 < min_gap →
      gap_pct session_open previous_close
          = (session_open - previous_close) / previous_close * 100 ∧
      (meets_down_threshold (gap_pct session_open previous_close) min_gap = true ↔
        min_gap ≤ |gap_pct session_open previous_close| ∧
          gap_pct session_open previous_close < 0) ∧
      gap_pct 495 500 = -1 ∧
      meets_down_threshold (gap_pct 495 500) 1 = true := by
  intro o p m _hp hm
  refine ⟨rfl, ?_, by norm_num [gap_pct], by norm_num [meets_down_threshold, gap_pct]⟩
  rw [meets_down_threshold, decide_eq_true_eq]
  set g := gap_pct o p with hg
  constructor
  · intro h
    have hneg : g < 0 := lt_of_le_of_lt h (by linarith)
    refine ⟨?_, hneg⟩
    rw [abs_of_neg hneg]
    linarith
  · rintro ⟨h1, h2⟩
    rw [abs_of_neg h2] at h1
    linarith

/-- Witness for `gap_percent_threshold` at the concrete scenario of the
spec: previous close 500, session open 495, threshold 1. -/
theorem gap_percent_threshold_witness :
    gap_pct 495 500 = -1 ∧ meets_down_threshold (gap_pct 495 500) 1 = true :=
  ⟨(gap_percent_threshold 495 500 1 (by norm_num) (by norm_num)).2.2.1,
   (gap_percent_threshold 495 500 1 (by norm_num) (by norm_num)).2.2.2⟩

/-- C2 counterexample: for the one-bar sequence whose bar has volume 0 the
cumulative volume of the prefix is 0 — so its VWAP is undefined — yet the
code still classifies the bar, printing ABOVE for it (the `else 0` branch of
the VWAP expression feeds 0 into the comparison `close > vwap`). -/
theorem zero_volume_prefix_classified :
    (foldBars initVwap [⟨10, 10, 10, 10, 0⟩]).cumVol = 0 ∧
    vwapRows [⟨10, 10, 10, 10, 0⟩] = [(10, 0, "ABOVE")] := by
  constructor
  · norm_num [foldBars, initVwap, stepVwap]
  · norm_num [vwapRows, vwapRowsFrom, initVwap, stepVwap, vwapOf, relation]

/-- C2 (amended): for every prefix of a bar sequence, the VWAP equals
cumulative typical-price-times-volume over cumulative volume whenever the
cumulative volume is positive; when the cumulative volume is 0 the code does
not leave the VWAP unused — it substitutes 0 for it and still classifies the
bar, as ABOVE exactly when the close is positive. -/
theorem vwap_defined_iff_volume_pos :
    ∀ bars : List Bar,
      ((foldBars initVwap bars).cumVol > 0 →
        vwapOf (foldBars initVwap bars)
          = (foldBars initVwap bars).cumVolPrice / (foldBars initVwap bars).cumVol) ∧
      ((foldBars initVwap bars).cumVol = 0 → vwapOf (foldBars initVwap bars) = 0) ∧
      ∀ (s : VwapState) (b : Bar),
        (stepVwap s b).cumVol = 0 →
        relation b.close (vwapOf (stepVwap s b))
          = if 0 < b.close then "ABOVE" else "BELOW" := by
  intro bars
  refine ⟨fun h => if_pos h, fun h => ?_, fun s b h => ?_⟩
  · simp [vwapOf, h]
  · simp [vwapOf, h, relation]

/-- Witness for `vwap_defined_iff_volume_pos`: a one-bar prefix with positive
volume has its VWAP given by the ratio, and a zero-volume step classifies a
bar with positive close as ABOVE. -/
theorem vwap_defined_iff_volume_pos_witness :
    vwapOf (foldBars initVwap [⟨1, 3, 3, 3, 1⟩])
      = (foldBars initVwap [⟨1, 3, 3, 3, 1⟩]).cumVolPrice
          / (foldBars initVwap [⟨1, 3, 3, 3, 1⟩]).cumVol ∧
    relation (10 : ℚ) (vwapOf (stepVwap initVwap ⟨10, 10, 10, 10, 0⟩)) = "ABOVE" := by
  constructor
  · exact (vwap_defined_iff_volume_pos [⟨1, 3, 3, 3, 1⟩]).1
      (by norm_num [foldBars, initVwap, stepVwap])
  · have h := (vwap_defined_iff_volume_pos []).2.2 initVwap ⟨10, 10, 10, 10, 0⟩
      (by norm_num [stepVwap, initVwap])
    rw [show ((⟨10, 10, 10, 10, 0⟩ : Bar).close) = (10 : ℚ) from rfl] at h
    rw [h]
    norm_num

/-- C1: the `analyze-orb.py` aggregation has no empty-input guard — on an
empty trade collection it divides `len(winners)` by `len(trades) = 0` and
raises `ZeroDivisionError` (modelled by `none`) — while the
`compare-all-strategies.py` aggregation guards the empty case and returns its
explicit no-trades marker without dividing. -/
theorem aggregate_empty_behavior :
    aggregateOrb [] = none ∧ aggregateCompare [] = CompareReport.noTrades := by
  constructor <;> rfl

/-- C5: the code's `gross_profit` and `gross_loss` equal the spec's sums of
absolute `pnlPercent` values over winners and losers, `profit_factor` is
their ratio whenever the gross loss is non-zero, and `profit_factor` is 0 —
with no error — whenever the gross loss is 0 (in particular when there are
winners but no losers). -/
theorem profit_factor_correct :
    ∀ trades : List Trade,
      gross_profit trades = specGrossProfit trades ∧
      gross_loss trades = specGrossLoss trades ∧
      (specGrossLoss trades ≠ 0 →
        profit_factor trades = specGrossProfit trades / specGrossLoss trades) ∧
      (specGrossLoss trades = 0 → profit_factor trades = 0) := by
  intro trades
  have hw : ∀ t ∈ winners trades, 0 < pnl t := by
    intro t ht
    have := List.mem_filter.mp ht
    simpa using this.2
  have hl : ∀ t ∈ losers trades, pnl t < 0 := by
    intro t ht
    have := List.mem_filter.mp ht
    simpa using this.2
  have hgp : gross_profit trades = specGrossProfit trades := by
    simp only [gross_profit, sumPnl, specGrossProfit]
    exact pos_list_sum_abs _ hw
  have hgl : gross_loss trades = specGrossLoss trades := by
    simp only [gross_loss, sumPnl, specGrossLoss]
    exact (neg_list_sum_abs _ hl).2
  have hglnn : 0 ≤ specGrossLoss trades := by
    rw [← hgl]
    exact abs_nonneg _
  refine ⟨hgp, hgl, fun h => ?_, fun h => ?_⟩
  · have hpos : gross_loss trades > 0 := by
      rw [hgl]
      exact lt_of_le_of_ne hglnn (Ne.symm h)
    rw [profit_factor, if_pos hpos, hgp, hgl]
  · have hnpos : ¬ gross_loss trades > 0 := by
      rw [hgl, h]
      exact lt_irrefl 0
    rw [profit_factor, if_neg hnpos]

/-- Witness for `profit_factor_correct`: with one winner (+2%) and one loser
(−1%) the profit factor is the ratio of the absolute sums; with one winner
and no losers it is 0. -/
theorem profit_factor_correct_witness :
    profit_factor [tWin, tLoss]
        = specGrossProfit [tWin, tLoss] / specGrossLoss [tWin, tLoss] ∧
    profit_factor [tWin] = 0 := by
  constructor
  · refine (profit_factor_correct [tWin, tLoss]).2.2.1 ?_
    simp [specGrossLoss, losers, pnl, tWin, tLoss, List.filter_cons]
  · refine (profit_factor_correct [tWin]).2.2.2 ?_
    simp [specGrossLoss, losers, pnl, tWin, List.filter_cons]

/-- C6: winners (`pnlPercent > 0`), losers (`pnlPercent < 0`) and zero-pnl
trades (`pnlPercent = 0`) partition every non-empty trade list — each trade
falls in exactly one class — and the three fractions sum to 1. -/
theorem sign_partition :
    ∀ trades : List Trade, trades ≠ [] →
      ((winners trades).length + (losers trades).length + (zeroPnl trades).length
          = trades.length) ∧
      (∀ t ∈ trades,
        (t ∈ winners trades ∧ t ∉ losers trades ∧ t ∉ zeroPnl trades) ∨
        (t ∉ winners trades ∧ t ∈ losers trades ∧ t ∉ zeroPnl trades) ∨
        (t ∉ winners trades ∧ t ∉ losers trades ∧ t ∈ zeroPnl trades)) ∧
      (((winners trades).length : ℚ) / (trades.length : ℚ)
          + ((losers trades).length : ℚ) / (trades.length : ℚ)
          + ((zeroPnl trades).length : ℚ) / (trades.length : ℚ) = 1) := by
  intro trades hne
  have hlen := filter_sign_partition_length trades
  refine ⟨hlen, ?_, ?_⟩
  · intro t ht
    rcases lt_trichotomy (pnl t) 0 with h | h | h
    · right; left
      simp [winners, losers, zeroPnl, List.mem_filter, ht, h, not_lt.mpr h.le,
        ne_of_lt h]
    · right; right
      simp [winners, losers, zeroPnl, List.mem_filter, ht, h]
    · left
      simp [winners, losers, zeroPnl, List.mem_filter, ht, h, not_lt.mpr h.le,
        ne_of_gt h]
  · have hn : (trades.length : ℚ) ≠ 0 := by
      have h0 : trades.length ≠ 0 := by
        intro h0
        exact hne (List.eq_nil_of_length_eq_zero h0)
      exact_mod_cast h0
    field_simp
    exact_mod_cast hlen

/-- Witness for `sign_partition`: the three-trade list with one winner, one
loser and one flat trade has fractions summing to 1. -/
theorem sign_partition_witness :
    ((winners [tWin, tLoss, tZero]).length : ℚ)
        / (([tWin, tLoss, tZero] : List Trade).length : ℚ)
      + ((losers [tWin, tLoss, tZero]).length : ℚ)
        / (([tWin, tLoss, tZero] : List Trade).length : ℚ)
      + ((zeroPnl [tWin, tLoss, tZero]).length : ℚ)
        / (([tWin, tLoss, tZero] : List Trade).length : ℚ) = 1 :=
  (sign_partition [tWin, tLoss, tZero] (by simp)).2.2

/-- C7: feeding bars to the VWAP fold in any grouping that preserves order
gives the same accumulator state as feeding them one at a time; the VWAP of a
prefix with positive total volume is total typical-price-times-volume over
total volume; and there is a non-constant (hence order-sensitive) two-bar
sequence whose reversal produces a different VWAP trajectory. -/
theorem vwap_fold_grouping_and_order :
    (∀ groups : List (List Bar),
      foldGroups initVwap groups = foldBars initVwap groups.flatten) ∧
    (∀ bars : List Bar, 0 < totalVolume bars →
      vwapOf (foldBars initVwap bars) = totalTypVol bars / totalVolume bars) ∧
    vwapTrajectory (List.reverse [⟨1, 3, 3, 3, 1⟩, ⟨1, 6, 6, 6, 1⟩])
      ≠ vwapTrajectory [⟨1, 3, 3, 3, 1⟩, ⟨1, 6, 6, 6, 1⟩] := by
  refine ⟨fun groups => foldGroups_eq_flatten groups initVwap, fun bars h => ?_, ?_⟩
  · have hv : (foldBars initVwap bars).cumVol = totalVolume bars := by
      rw [foldBars_cumVol bars initVwap]
      simp [initVwap]
    have hp : (foldBars initVwap bars).cumVolPrice = totalTypVol bars := by
      rw [foldBars_cumVolPrice bars initVwap]
      simp [initVwap]
    rw [vwapOf, if_pos (by rw [hv]; exact h), hv, hp]
  · norm_num [vwapTrajectory, vwapTrajectoryFrom, stepVwap, initVwap, vwapOf]

/-- Witness for `vwap_fold_grouping_and_order`: grouping two bars as two
singleton groups gives the fold of the flat list, and a positive-volume
one-bar list has its VWAP given by the totals ratio. -/
theorem vwap_fold_grouping_and_order_witness :
    foldGroups initVwap [[⟨1, 3, 3, 3, 1⟩], [⟨1, 6, 6, 6, 1⟩]]
        = foldBars initVwap [⟨1, 3, 3, 3, 1⟩, ⟨1, 6, 6, 6, 1⟩] ∧
    vwapOf (foldBars initVwap [⟨1, 3, 3, 3, 1⟩])
        = totalTypVol [⟨1, 3, 3, 3, 1⟩] / totalVolume [⟨1, 3, 3, 3, 1⟩] := by
  constructor
  · have h := vwap_fold_grouping_and_order.1 [[⟨1, 3, 3, 3, 1⟩], [⟨1, 6, 6, 6, 1⟩]]
    simpa using h
  · exact vwap_fold_grouping_and_order.2.1 [⟨1, 3, 3, 3, 1⟩]
      (by norm_num [totalVolume])

/-- A reason occurs among the `by_reason` keys exactly when its group of
`pnlPercent` values is non-empty. -/
theorem reason_key_iff :
    ∀ (trades : List Trade) (r : PyStr),
      r ∈ by_reason_keys trades ↔ reasonPnls trades r ≠ [] := by
  intro trades r
  rw [by_reason_keys, List.mem_dedup, List.mem_map]
  constructor
  · rintro ⟨t, ht, rfl⟩
    intro hnil
    rw [reasonPnls] at hnil
    have hfil : trades.filter (fun t' => t'.exitReason = t.exitReason) = [] :=
      List.map_eq_nil_iff.mp hnil
    have hmem : t ∈ trades.filter (fun t' => t'.exitReason = t.exitReason) :=
      List.mem_filter.mpr ⟨ht, by simp⟩
    rw [hfil] at hmem
    exact absurd hmem (List.not_mem_nil t)
  · intro hne
    have hfil : trades.filter (fun t' => t'.exitReason = r) ≠ [] := by
      intro hnil
      rw [reasonPnls, hnil] at hne
      exact hne rfl
    obtain ⟨t, ht⟩ := List.exists_mem_of_ne_nil _ hfil
    have := List.mem_filter.mp ht
    exact ⟨t, this.1, by simpa using this.2⟩

/-- C8: the exit-reason breakdown and the entry-time-bucket breakdown report
each non-empty group with its trade count and mean `pnlPercent`, and a group
with no members never appears in either report. -/
theorem group_breakdown_nonempty_only :
    ∀ (trades : List Trade) (r b : PyStr),
      (reasonPnls trades r ≠ [] →
        (r, (reasonPnls trades r).length,
          (reasonPnls trades r).sum / ((reasonPnls trades r).length : ℚ))
            ∈ reasonReport trades) ∧
      (reasonPnls trades r = [] → ∀ (n : Nat) (m : ℚ), (r, n, m) ∉ reasonReport trades) ∧
      (timingPnls trades b ≠ [] → b ∈ timingBuckets →
        (b, (timingPnls trades b).length,
          (timingPnls trades b).sum / ((timingPnls trades b).length : ℚ))
            ∈ timingReport trades) ∧
      (timingPnls trades b = [] → ∀ (n : Nat) (m : ℚ), (b, n, m) ∉ timingReport trades) := by
  intro trades r b
  refine ⟨fun h => ?_, fun h n m hmem => ?_, fun h hb => ?_, fun h n m hmem => ?_⟩
  · rw [reasonReport]
    exact List.mem_map_of_mem _ ((reason_key_iff trades r).mpr h)
  · rw [reasonReport] at hmem
    obtain ⟨r', hr', heq⟩ := List.mem_map.mp hmem
    have hfst : r' = r := congrArg Prod.fst heq
    rw [hfst] at hr'
    exact (reason_key_iff trades r).mp hr' h
  · rw [timingReport]
    apply List.mem_filterMap.mpr
    refine ⟨b, hb, ?_⟩
    rw [if_neg]
    intro hlen
    exact h (List.length_eq_zero.mp hlen)
  · rw [timingReport] at hmem
    obtain ⟨b', hb', heq⟩ := List.mem_filterMap.mp hmem
    by_cases hemp : (timingPnls trades b').length = 0
    · rw [if_pos hemp] at heq
      exact Option.noConfusion heq
    · rw [if_neg hemp] at heq
      have hfst : b' = b := congrArg Prod.fst (Option.some.inj heq)
      rw [hfst] at hemp
      exact hemp (by rw [h]; rfl)

/-- Witness for `group_breakdown_nonempty_only`: on a two-trade list, the
`"target"` reason group appears in the breakdown with count 1, the
10:00–11:00 bucket appears in the timing breakdown, and the never-occurring
`"time_exit"` reason is absent. -/
theorem group_breakdown_nonempty_only_witness :
    ("target".toList, (reasonPnls [tWin, tLoss] "target".toList).length,
        (reasonPnls [tWin, tLoss] "target".toList).sum
          / ((reasonPnls [tWin, tLoss] "target".toList).length : ℚ))
      ∈ reasonReport [tWin, tLoss] ∧
    ("10:00-11:00".toList, (timingPnls [tWin, tLoss] "10:00-11:00".toList).length,
        (timingPnls [tWin, tLoss] "10:00-11:00".toList).sum
          / ((timingPnls [tWin, tLoss] "10:00-11:00".toList).length : ℚ))
      ∈ timingReport [tWin, tLoss] ∧
    ("time_exit".toList, 0, (0 : ℚ)) ∉ reasonReport [tWin, tLoss] := by
  refine ⟨?_, ?_, ?_⟩
  · exact (group_breakdown_nonempty_only [tWin, tLoss] "target".toList []).1 (by decide)
  · exact (group_breakdown_nonempty_only [tWin, tLoss] [] "10:00-11:00".toList).2.2.1
      (by decide) (by decide)
  · exact (group_breakdown_nonempty_only [tWin, tLoss] "time_exit".toList []).2.1
      (by decide) 0 0

/-- C10: a trade with a non-empty, well-formed `entryTime` is assigned
exactly the bucket determined by its hour, that bucket is one of the five
fixed buckets, every hour other than 9–12 falls to the `"13:00+"` bucket, and
a trade with empty `entryTime` is assigned no bucket and is excluded from
every bucket's group. -/
theorem timing_bucket_assignment :
    ∀ (t : Trade) (h : Nat),
      (t.entryTime ≠ [] → hourOf t.entryTime = some h →
        timingBucket t = some (bucketOfHour h) ∧
        bucketOfHour h ∈ timingBuckets ∧
        (h ≠ 9 → h ≠ 10 → h ≠ 11 → h ≠ 12 → bucketOfHour h = "13:00+".toList)) ∧
      (t.entryTime = [] →
        timingBucket t = none ∧
        ∀ (trades : List Trade) (b : PyStr),
          t ∉ trades.filter (fun t' => timingBucket t' = some b)) := by
  intro t h
  constructor
  · intro hne hh
    refine ⟨?_, ?_, ?_⟩
    · rw [timingBucket, if_neg hne, hh]
      rfl
    · rw [bucketOfHour]
      split_ifs <;> simp [timingBuckets]
    · intro h9 h10 h11 h12
      rw [bucketOfHour, if_neg h9, if_neg h10, if_neg h11, if_neg h12]
  · intro he
    have hb : timingBucket t = none := by rw [timingBucket, if_pos he]
    refine ⟨hb, fun trades b hmem => ?_⟩
    have hcond := (List.mem_filter.mp hmem).2
    rw [hb] at hcond
    simp at hcond

/-- Witness for `timing_bucket_assignment`: an 08:15 entry lands in the
`"13:00+"` bucket, and an empty `entryTime` yields no bucket. -/
theorem timing_bucket_assignment_witness :
    timingBucket tEarly = some ("13:00+".toList) ∧ timingBucket tEmptyTime = none := by
  constructor
  · have h := (timing_bucket_assignment tEarly 8).1 (by decide) (by decide)
    rw [h.1, h.2.2 (by decide) (by decide) (by decide) (by decide)]
  · exact ((timing_bucket_assignment tEmptyTime 0).2 rfl).1

/-- C4 counterexample: on the one-line file whose whole content is the JSON
array `[1, 2]` — a file with no diagnostic preamble — the `analyze-orb.py`
loader discards the first (and only) line and so fails to parse (`none`,
i.e. a raised `JSONDecodeError`), even though the file's content parses to
all of its records. -/
theorem load_orb_no_preamble_fails :
    load_orb ["[1, 2]\n".toList] = none ∧
    jsonLoadsArr (["[1, 2]\n".toList] : PyLines).flatten = some [1, 2] := by
  constructor <;> decide

/-- The `json_start` scan finds the first line whose stripped form starts
with `'['`, counting from the given index. -/
theorem jsonStartFrom_spec :
    ∀ (pre : PyLines) (l : PyStr) (rest : PyLines) (i : Nat),
      (∀ p ∈ pre, startsWithChar (pyStrip p) '[' = false) →
      startsWithChar (pyStrip l) '[' = true →
      jsonStartFrom i (pre ++ l :: rest) = i + pre.length := by
  intro pre
  induction pre with
  | nil =>
    intro l rest i _ hl
    simp [jsonStartFrom, hl]
  | cons p ps ih =>
    intro l rest i hpre hl
    have hp : startsWithChar (pyStrip p) '[' = false := hpre p (List.mem_cons_self p ps)
    rw [List.cons_append, jsonStartFrom, hp]
    simp only [Bool.false_eq_true, if_false]
    rw [ih l rest (i + 1) (fun q hq => hpre q (List.mem_cons_of_mem p hq)) hl]
    simp
    omega

/-- C4 (amended): the `json_start`-scanning loader of
`analyze-orb-validated.py` recovers exactly the array for any diagnostic
preamble whose lines do not start with `'['` — in particular for the empty
preamble; the `compare-all-strategies.py` loader does so whenever the array
starts on the first line; but the `analyze-orb.py` loader unconditionally
discards the first line, so it parses the tail of the file, not the file. -/
theorem loaders_skip_diagnostics :
    (∀ (pre arr : PyLines) (l0 : PyStr) (ls : PyLines),
      arr = l0 :: ls →
      (∀ p ∈ pre, startsWithChar (pyStrip p) '[' = false) →
      startsWithChar (pyStrip l0) '[' = true →
      load_validated (pre ++ arr) = jsonLoadsArr arr.flatten) ∧
    (∀ (l : PyStr) (ls : PyLines), load_orb (l :: ls) = jsonLoadsArr ls.flatten) ∧
    (∀ lines : PyLines, startsWithChar (pyStrip (lines.headD [])) '[' = true →
      load_compare lines = jsonLoadsArr lines.flatten) := by
  refine ⟨?_, fun l ls => rfl, fun lines h => by rw [load_compare, if_pos h]⟩
  rintro pre arr l0 ls rfl hpre hl
  rw [load_validated, json_start, jsonStartFrom_spec pre l0 ls 0 hpre hl, Nat.zero_add,
    List.drop_left]

/-- Witness for `loaders_skip_diagnostics`: the validated loader recovers
`[1, 2]` both from a file with a one-line diagnostic preamble and from a file
with no preamble, and the compare loader recovers it from the no-preamble
file. -/
theorem loaders_skip_diagnostics_witness :
    load_validated ["diagnostic preamble\n".toList, "[1, 2]\n".toList] = some [1, 2] ∧
    load_validated ["[1, 2]\n".toList] = some [1, 2] ∧
    load_compare ["[1, 2]\n".toList] = some [1, 2] := by
  refine ⟨?_, ?_, ?_⟩
  · exact (loaders_skip_diagnostics.1 ["diagnostic preamble\n".toList]
      ["[1, 2]\n".toList] "[1, 2]\n".toList [] rfl (by decide) (by decide)).trans (by decide)
  · exact (loaders_skip_diagnostics.1 [] ["[1, 2]\n".toList] "[1, 2]\n".toList []
      rfl (by decide) (by decide)).trans (by decide)
  · exact (loaders_skip_diagnostics.2.2 ["[1, 2]\n".toList] (by decide)).trans (by decide)

end PropFirm
